import Mathlib

/-!
Verification development for the MadChat repository's Replicate image MCP
server (`src/mcp/replicate-image/replicate_image/server.py`).

Text is modelled as `List Char`.  The three Python regular expressions
(`DATA_URI_PATTERN`, `REPLICATE_DELIVERY_PATTERN`, `IMAGE_URL_PATTERN`) are
embedded as dedicated matchers that reproduce the semantics of Python's
`re.findall` on those concrete patterns: at every text position the engine
attempts a leftmost match, character classes are matched greedily with
backtracking, literal characters compare case-insensitively (the patterns
are compiled with `re.IGNORECASE`), and scanning resumes at the end of each
match.  Python's `\s` is modelled on its ASCII subset, which is exact for
all ASCII inputs.

The Replicate provider (`replicate.run`) is an external collaborator; it is
modelled as a function parameter returning either a Python value (a scalar,
possibly `None`, or a list of values) or a raised exception, so theorems
quantify over all provider behaviours.
-/

/-- ASCII subset of Python's `\s` character class. -/
def isPySpace (c : Char) : Bool :=
  c = ' ' || c = '\t' || c = '\n' || c = '\r' || c = '\x0b' || c = '\x0c'

/-- The characters excluded by the class `[^\s"\x27<>]` used in the URL
patterns: whitespace, double quote, single quote, angle brackets. -/
def isUrlStopChar (c : Char) : Bool :=
  isPySpace c || c = Char.ofNat 34 || c = Char.ofNat 39 || c = '<' || c = '>'

/-- Case-insensitive literal matching: strip the (lowercase) literal from the
front of the input, comparing each input character via `Char.toLower`.
Returns the remaining input on success. -/
def stripCI : List Char → List Char → Option (List Char)
  | [], s => some s
  | _ :: _, [] => none
  | l :: ls, c :: cs => if c.toLower = l then stripCI ls cs else none

def dataImageLit : List Char := "data:image/".toList

def base64Lit : List Char := ";base64,".toList

def httpsReplicateLit : List Char := "https://replicate.delivery/".toList

def httpReplicateLit : List Char := "http://replicate.delivery/".toList

def httpsLit : List Char := "https://".toList

def httpLit : List Char := "http://".toList

/-- The alternatives of `(?:jpg|jpeg|png|gif|webp|bmp|svg)` in pattern order. -/
def extLits : List (List Char) :=
  ["jpg".toList, "jpeg".toList, "png".toList, "gif".toList,
   "webp".toList, "bmp".toList, "svg".toList]

/-- Length (in characters) of a match of `DATA_URI_PATTERN`
(`data:image/[^;]+;base64,[^\s"\x27<>]+`) at the start of `s`, if any.
The greedy `[^;]+` must stop at the first `;` (it cannot cross one and the
following literal starts with `;`), so no backtracking arises. -/
def dataUriMatch (s : List Char) : Option Nat :=
  match stripCI dataImageLit s with
  | none => none
  | some r1 =>
    let mediaSub := r1.takeWhile (fun c => decide (c ≠ ';'))
    if mediaSub.isEmpty then none
    else
      match stripCI base64Lit (r1.drop mediaSub.length) with
      | none => none
      | some r2 =>
        let payload := r2.takeWhile (fun c => !(isUrlStopChar c))
        if payload.isEmpty then none
        else some (dataImageLit.length + mediaSub.length
                   + base64Lit.length + payload.length)

/-- Length of a match of `REPLICATE_DELIVERY_PATTERN`
(`https?://replicate\.delivery/[^\s"\x27<>]+`) at the start of `s`.  The
greedy `s?` tries the `https` literal first; the trailing class is a maximal
nonempty run. -/
def replicateDeliveryMatch (s : List Char) : Option Nat :=
  match stripCI httpsReplicateLit s with
  | some r =>
    let payload := r.takeWhile (fun c => !(isUrlStopChar c))
    if payload.isEmpty then none
    else some (httpsReplicateLit.length + payload.length)
  | none =>
    match stripCI httpReplicateLit s with
    | some r =>
      let payload := r.takeWhile (fun c => !(isUrlStopChar c))
      if payload.isEmpty then none
      else some (httpReplicateLit.length + payload.length)
    | none => none

/-- First alternative of the extension alternation that matches at `s`
(case-insensitively), returning its length. -/
def firstExtLen : List (List Char) → List Char → Option Nat
  | [], _ => none
  | e :: es, s =>
    match stripCI e s with
    | some _ => some e.length
    | none => firstExtLen es s

/-- Match `\.(?:jpg|jpeg|png|gif|webp|bmp|svg)` at the start of `s`,
returning the number of characters consumed (dot plus extension). -/
def tryExtAt (s : List Char) : Option Nat :=
  match s with
  | [] => none
  | c :: cs =>
    if c = '.' then
      match firstExtLen extLits cs with
      | some n => some (n + 1)
      | none => none
    else none

/-- Greedy backtracking for `[^\s"\x27<>]+\.(?:…)`: try giving the character
class `k` characters for `k` from the maximal run length down to 1, and take
the first `k` at which the dot-extension tail matches.  Returns the class
length and the tail length. -/
def findExtSplit (r : List Char) : Nat → Option (Nat × Nat)
  | 0 => none
  | k + 1 =>
    match tryExtAt (r.drop (k + 1)) with
    | some n => some (k + 1, n)
    | none => findExtSplit r k

/-- Length of a match of `IMAGE_URL_PATTERN`
(`https?://[^\s"\x27<>]+\.(?:jpg|jpeg|png|gif|webp|bmp|svg)`) at the start
of `s`. -/
def imageUrlMatch (s : List Char) : Option Nat :=
  match stripCI httpsLit s with
  | some r =>
    (match findExtSplit r ((r.takeWhile (fun c => !(isUrlStopChar c))).length) with
     | some kn => some (httpsLit.length + kn.1 + kn.2)
     | none => none)
  | none =>
    match stripCI httpLit s with
    | some r =>
      (match findExtSplit r ((r.takeWhile (fun c => !(isUrlStopChar c))).length) with
       | some kn => some (httpLit.length + kn.1 + kn.2)
       | none => none)
    | none => none

/-- One pass of `re.findall`'s scanner with explicit fuel: at each position
try the matcher; on a match of length `n+1` record it and resume after it,
on failure (or an empty match) advance one character.  `pyFindall` supplies
`fuel = s.length`, which is always sufficient since every step consumes at
least one character. -/
def scanFuel (m : List Char → Option Nat) : Nat → List Char → List (List Char)
  | 0, _ => []
  | _ + 1, [] => []
  | fuel + 1, c :: cs =>
    match m (c :: cs) with
    | none => scanFuel m fuel cs
    | some 0 => [] :: scanFuel m fuel cs
    | some (n + 1) => (c :: cs).take (n + 1) :: scanFuel m fuel (cs.drop n)

/-- `re.findall` of the given matcher over `s`: all non-overlapping matches
in left-to-right order. -/
def pyFindall (m : List Char → Option Nat) (s : List Char) : List (List Char) :=
  scanFuel m s.length s

/-- The `seen`-set deduplication loop of `extract_image_urls`: keep each URL
the first time it is encountered. -/
def dedupAux (seen : List (List Char)) : List (List Char) → List (List Char)
  | [] => []
  | u :: rest =>
    if u ∈ seen then dedupAux seen rest
    else u :: dedupAux (u :: seen) rest

/-- `extract_image_urls` (server.py lines 34–58): concatenate the findall
results of the data-URI, replicate-delivery and generic image patterns, then
remove duplicates preserving first occurrences. -/
def extract_image_urls (text : List Char) : List (List Char) :=
  dedupAux [] (pyFindall dataUriMatch text
    ++ pyFindall replicateDeliveryMatch text
    ++ pyFindall imageUrlMatch text)

/-- Python truthiness of an optional string: `None` and `""` are falsy. -/
def pyTruthy : Option (List Char) → Bool
  | none => false
  | some s => !s.isEmpty

/-- `find_image_from_context` (server.py lines 60–69): `None` or empty
context yields `None`; otherwise the last extracted URL, if any. -/
def find_image_from_context (context : Option (List Char)) : Option (List Char) :=
  match context with
  | none => none
  | some c => if c.isEmpty then none else (extract_image_urls c).getLast?

/-- Python's `str.split(",")`. -/
def splitComma : List Char → List (List Char)
  | [] => [[]]
  | c :: cs =>
    if c = ',' then [] :: splitComma cs
    else
      match splitComma cs with
      | [] => [[c]]
      | g :: gs => (c :: g) :: gs

/-- Python's `str.strip()` on its ASCII whitespace subset. -/
def pyStrip (s : List Char) : List Char :=
  ((s.dropWhile isPySpace).reverse.dropWhile isPySpace).reverse

/-- A Python value as seen by the gateway: only its `str()` image matters,
except that `None` is distinguished (it is what an absent provider result
is in Python, and `str(None) = "None")`. -/
inductive PyValue where
  | vNone : PyValue
  | vStr : List Char → PyValue
deriving DecidableEq

/-- Python `str()` of a provider-returned value. -/
def pyToString : PyValue → List Char
  | PyValue.vNone => "None".toList
  | PyValue.vStr s => s

/-- Shape of a value returned by `replicate.run`: either a Python list or a
single scalar value (`isinstance(output, list)` distinguishes the two). -/
inductive ProviderOutput where
  | pyList : List PyValue → ProviderOutput
  | scalar : PyValue → ProviderOutput
deriving DecidableEq

/-- The normalization at server.py lines 100–103 / 185–187: a list is
stringified elementwise, anything else is stringified and wrapped. -/
def normalizeOutput : ProviderOutput → List (List Char)
  | ProviderOutput.pyList vs => vs.map pyToString
  | ProviderOutput.scalar v => [pyToString v]

/-- The `input` mapping built by `generate_image` (prompt, aspect ratio
`"4:3"`, num_outputs, quality `"low"`). -/
structure GenInput where
  prompt : List Char
  aspect : List Char
  num_outputs : Nat
  quality : List Char
deriving DecidableEq

/-- The `input` mapping built by `edit_image` (image, prompt, aspect ratio
`"3:2"`, num_outputs, quality `"low"`). -/
structure EditInput where
  image : List Char
  prompt : List Char
  aspect : List Char
  num_outputs : Nat
  quality : List Char
deriving DecidableEq

def genInputOf (prompt : List Char) (num_outputs : Nat) : GenInput :=
  ⟨prompt, "4:3".toList, num_outputs, "low".toList⟩

def editInputOf (image prompt : List Char) (num_outputs : Nat) : EditInput :=
  ⟨image, prompt, "3:2".toList, num_outputs, "low".toList⟩

def genFailMsg : List Char := "Failed to generate image: ".toList

def editFailMsg : List Char := "Failed to edit image: ".toList

/-- `generate_image` (server.py lines 71–107), with `replicate.run` passed
in as `run` (an exception surfaces as `Except.error` carrying `str(e)`). -/
def generate_image (prompt : List Char) (num_outputs : Nat) (model : List Char)
    (run : List Char → GenInput → Except (List Char) ProviderOutput) :
    Except (List Char) (List (List Char)) :=
  match run model (genInputOf prompt num_outputs) with
  | Except.ok output => Except.ok (normalizeOutput output)
  | Except.error e => Except.error (genFailMsg ++ e)

/-- The image-source resolution of `edit_image` (server.py lines 143–160):
explicit URL if truthy, else the last context mention, else the last
nonempty trimmed entry of the `CONVERSATION_IMAGES` environment value
(modelled by `env_images`, with `""` standing for an unset variable as
`os.environ.get("CONVERSATION_IMAGES", "")` does). -/
def resolveImageUrl (image_url : Option (List Char))
    (conversation_context : Option (List Char)) (env_images : List Char) :
    Option (List Char) :=
  if pyTruthy image_url then image_url
  else
    let fromCtx :=
      if pyTruthy conversation_context
      then find_image_from_context conversation_context
      else image_url
    if pyTruthy fromCtx then fromCtx
    else if env_images.isEmpty then fromCtx
    else
      let urls := ((splitComma env_images).map pyStrip).filter (fun u => !u.isEmpty)
      if urls.isEmpty then fromCtx else urls.getLast?

/-- The remote-call-and-normalize tail of `edit_image`
(server.py lines 173–191). -/
def editRemoteCall (run : List Char → EditInput → Except (List Char) ProviderOutput)
    (model image prompt : List Char) (num_outputs : Nat) :
    Except (List Char) (List (List Char)) :=
  match run model (editInputOf image prompt num_outputs) with
  | Except.ok output => Except.ok (normalizeOutput output)
  | Except.error e => Except.error (editFailMsg ++ e)

/-- `edit_image` (server.py lines 109–191): resolve the target image; if the
resolved value is absent or empty return `[]` without calling the provider,
otherwise delegate to the remote call. -/
def edit_image (prompt : List Char) (image_url : Option (List Char))
    (conversation_context : Option (List Char)) (num_outputs : Nat)
    (model : List Char) (env_images : List Char)
    (run : List Char → EditInput → Except (List Char) ProviderOutput) :
    Except (List Char) (List (List Char)) :=
  match resolveImageUrl image_url conversation_context env_images with
  | none => Except.ok []
  | some img =>
    if img.isEmpty then Except.ok []
    else editRemoteCall run model img prompt num_outputs

/-- The specification's characterization of deduplication: keep each
element's first occurrence, preserving order. -/
def keepFirstOccurrences : List (List Char) → List (List Char)
  | [] => []
  | x :: xs => x :: keepFirstOccurrences (xs.filter (fun y => decide (y ≠ x)))
termination_by l => l.length
decreasing_by
  simp only [List.length_cons]
  exact Nat.lt_succ_of_le (List.length_filter_le _ _)

theorem isEmpty_false_of_ne_nil {α : Type} {l : List α} (h : l ≠ []) :
    l.isEmpty = false := by
  cases l with
  | nil => exact absurd rfl h
  | cons _ _ => rfl

theorem ne_nil_of_isEmpty_false {α : Type} {l : List α} (h : l.isEmpty = false) :
    l ≠ [] := by
  cases l with
  | nil => simp [List.isEmpty] at h
  | cons _ _ => simp

theorem getLast?_eq_some_of_ne_nil {l : List (List Char)} (h : l ≠ []) :
    ∃ a, l.getLast? = some a := by
  induction l with
  | nil => exact absurd rfl h
  | cons x xs ih =>
    cases xs with
    | nil => exact ⟨x, rfl⟩
    | cons y ys =>
      obtain ⟨a, ha⟩ := ih (by simp)
      exact ⟨a, by rw [List.getLast?_cons_cons, ha]⟩

theorem mem_of_getLast?_eq_some {l : List (List Char)} {a : List Char}
    (h : l.getLast? = some a) : a ∈ l := by
  induction l with
  | nil => simp [List.getLast?] at h
  | cons x xs ih =>
    cases xs with
    | nil =>
      simp [List.getLast?] at h
      simp [h]
    | cons y ys =>
      rw [List.getLast?_cons_cons] at h
      exact List.mem_cons_of_mem _ (ih h)

theorem scanFuel_zero (m : List Char → Option Nat) (s : List Char) :
    scanFuel m 0 s = [] := rfl

theorem scanFuel_nil (m : List Char → Option Nat) (f : Nat) :
    scanFuel m (f + 1) [] = [] := rfl

theorem scanFuel_cons_none {m : List Char → Option Nat} {c : Char} {cs : List Char}
    (f : Nat) (h : m (c :: cs) = none) :
    scanFuel m (f + 1) (c :: cs) = scanFuel m f cs := by
  simp [scanFuel, h]

theorem scanFuel_cons_zero {m : List Char → Option Nat} {c : Char} {cs : List Char}
    (f : Nat) (h : m (c :: cs) = some 0) :
    scanFuel m (f + 1) (c :: cs) = [] :: scanFuel m f cs := by
  simp [scanFuel, h]

theorem scanFuel_cons_succ {m : List Char → Option Nat} {c : Char} {cs : List Char}
    {n : Nat} (f : Nat) (h : m (c :: cs) = some (n + 1)) :
    scanFuel m (f + 1) (c :: cs) =
      (c :: cs).take (n + 1) :: scanFuel m f (cs.drop n) := by
  simp [scanFuel, h]

/-- Every recorded match of a findall scan is a `take` of the text at the
match position; any property of such takes holds of every scan element. -/
theorem scanFuel_mem_prop (P : List Char → Prop) {m : List Char → Option Nat}
    (hm : ∀ s n, m s = some n → P (s.take n)) :
    ∀ (fuel : Nat) (s : List Char), ∀ u ∈ scanFuel m fuel s, P u := by
  intro fuel
  induction fuel with
  | zero => intro s u hu; simp [scanFuel_zero] at hu
  | succ f ih =>
    intro s u hu
    cases s with
    | nil => simp [scanFuel_nil] at hu
    | cons c cs =>
      cases he : m (c :: cs) with
      | none =>
        rw [scanFuel_cons_none f he] at hu
        exact ih cs u hu
      | some n =>
        cases n with
        | zero =>
          rw [scanFuel_cons_zero f he] at hu
          rcases List.mem_cons.mp hu with h | h
          · subst h; exact hm (c :: cs) 0 he
          · exact ih cs u h
        | succ k =>
          rw [scanFuel_cons_succ f he] at hu
          rcases List.mem_cons.mp hu with h | h
          · subst h; exact hm (c :: cs) (k + 1) he
          · exact ih (cs.drop k) u h

theorem pyFindall_mem_prop (P : List Char → Prop) {m : List Char → Option Nat}
    (hm : ∀ s n, m s = some n → P (s.take n)) {s u : List Char}
    (hu : u ∈ pyFindall m s) : P u :=
  scanFuel_mem_prop P hm s.length s u hu

theorem stripCI_head {l : Char} {ls s r : List Char}
    (h : stripCI (l :: ls) s = some r) :
    ∃ c cs, s = c :: cs ∧ c.toLower = l := by
  cases s with
  | nil => simp [stripCI] at h
  | cons c cs =>
    refine ⟨c, cs, rfl, ?_⟩
    by_contra hne
    simp [stripCI, hne] at h

theorem dataUriMatch_pos {s : List Char} {n : Nat}
    (h : dataUriMatch s = some n) : 0 < n := by
  unfold dataUriMatch at h
  split at h
  · exact absurd h (by simp)
  · dsimp only at h
    split at h
    · exact absurd h (by simp)
    · split at h
      · exact absurd h (by simp)
      · split at h
        · exact absurd h (by simp)
        · have hn := (Option.some.injEq _ _).mp h.symm
          have : dataImageLit.length = 11 := by decide
          omega

theorem replicateDeliveryMatch_pos {s : List Char} {n : Nat}
    (h : replicateDeliveryMatch s = some n) : 0 < n := by
  unfold replicateDeliveryMatch at h
  split at h
  · dsimp only at h
    split at h
    · exact absurd h (by simp)
    · have hn := (Option.some.injEq _ _).mp h.symm
      have : httpsReplicateLit.length = 27 := by decide
      omega
  · split at h
    · dsimp only at h
      split at h
      · exact absurd h (by simp)
      · have hn := (Option.some.injEq _ _).mp h.symm
        have : httpReplicateLit.length = 26 := by decide
        omega
    · exact absurd h (by simp)

theorem imageUrlMatch_pos {s : List Char} {n : Nat}
    (h : imageUrlMatch s = some n) : 0 < n := by
  unfold imageUrlMatch at h
  split at h
  · split at h
    · have hn := (Option.some.injEq _ _).mp h.symm
      have : httpsLit.length = 8 := by decide
      omega
    · exact absurd h (by simp)
  · split at h
    · split at h
      · have hn := (Option.some.injEq _ _).mp h.symm
        have : httpLit.length = 7 := by decide
        omega
      · exact absurd h (by simp)
    · exact absurd h (by simp)

theorem dataImageLit_eq : dataImageLit = 'd' :: "ata:image/".toList := by decide

theorem httpsReplicateLit_eq :
    httpsReplicateLit = 'h' :: "ttps://replicate.delivery/".toList := by decide

theorem httpReplicateLit_eq :
    httpReplicateLit = 'h' :: "ttp://replicate.delivery/".toList := by decide

theorem httpsLit_eq : httpsLit = 'h' :: "ttps://".toList := by decide

theorem httpLit_eq : httpLit = 'h' :: "ttp://".toList := by decide

theorem dataUriMatch_head {s : List Char} {n : Nat}
    (h : dataUriMatch s = some n) :
    ∃ c cs, s = c :: cs ∧ c.toLower = 'd' := by
  unfold dataUriMatch at h
  split at h
  · exact absurd h (by simp)
  · next r1 heq =>
    rw [dataImageLit_eq] at heq
    exact stripCI_head heq

theorem replicateDeliveryMatch_head {s : List Char} {n : Nat}
    (h : replicateDeliveryMatch s = some n) :
    ∃ c cs, s = c :: cs ∧ c.toLower = 'h' := by
  unfold replicateDeliveryMatch at h
  split at h
  · next r heq =>
    rw [httpsReplicateLit_eq] at heq
    exact stripCI_head heq
  · split at h
    · next r heq =>
      rw [httpReplicateLit_eq] at heq
      exact stripCI_head heq
    · exact absurd h (by simp)

theorem imageUrlMatch_head {s : List Char} {n : Nat}
    (h : imageUrlMatch s = some n) :
    ∃ c cs, s = c :: cs ∧ c.toLower = 'h' := by
  unfold imageUrlMatch at h
  split at h
  · next r heq =>
    rw [httpsLit_eq] at heq
    exact stripCI_head heq
  · split at h
    · next r heq =>
      rw [httpLit_eq] at heq
      exact stripCI_head heq
    · exact absurd h (by simp)

theorem take_head {s : List Char} {c : Char} {cs : List Char} {n : Nat}
    (hs : s = c :: cs) (hn : 0 < n) : (s.take n).head? = some c := by
  subst hs
  cases n with
  | zero => omega
  | succ k => rfl

theorem ne_nil_of_head? {u : List Char} {c : Char} (h : u.head? = some c) :
    u ≠ [] := by
  cases u with
  | nil => simp at h
  | cons _ _ => simp

theorem mem_findall_data_head {t u : List Char}
    (hu : u ∈ pyFindall dataUriMatch t) :
    ∃ c, u.head? = some c ∧ c.toLower = 'd' :=
  pyFindall_mem_prop (fun v => ∃ c, v.head? = some c ∧ c.toLower = 'd')
    (fun s n h => by
    obtain ⟨c, cs, hs, hc⟩ := dataUriMatch_head h
    exact ⟨c, take_head hs (dataUriMatch_pos h), hc⟩) hu

theorem mem_findall_replicate_head {t u : List Char}
    (hu : u ∈ pyFindall replicateDeliveryMatch t) :
    ∃ c, u.head? = some c ∧ c.toLower = 'h' :=
  pyFindall_mem_prop (fun v => ∃ c, v.head? = some c ∧ c.toLower = 'h')
    (fun s n h => by
    obtain ⟨c, cs, hs, hc⟩ := replicateDeliveryMatch_head h
    exact ⟨c, take_head hs (replicateDeliveryMatch_pos h), hc⟩) hu

theorem mem_findall_imageUrl_head {t u : List Char}
    (hu : u ∈ pyFindall imageUrlMatch t) :
    ∃ c, u.head? = some c ∧ c.toLower = 'h' :=
  pyFindall_mem_prop (fun v => ∃ c, v.head? = some c ∧ c.toLower = 'h')
    (fun s n h => by
    obtain ⟨c, cs, hs, hc⟩ := imageUrlMatch_head h
    exact ⟨c, take_head hs (imageUrlMatch_pos h), hc⟩) hu

theorem mem_dedupAux {u : List Char} :
    ∀ (l seen : List (List Char)), u ∈ dedupAux seen l ↔ u ∈ l ∧ u ∉ seen := by
  intro l
  induction l with
  | nil => intro seen; simp [dedupAux]
  | cons x xs ih =>
    intro seen
    by_cases hx : x ∈ seen
    · rw [dedupAux, if_pos hx, ih]
      simp only [List.mem_cons]
      constructor
      · rintro ⟨h1, h2⟩; exact ⟨Or.inr h1, h2⟩
      · rintro ⟨h1 | h1, h2⟩
        · subst h1; exact absurd hx h2
        · exact ⟨h1, h2⟩
    · rw [dedupAux, if_neg hx]
      simp only [List.mem_cons, ih, List.mem_cons]
      constructor
      · rintro (h | ⟨h1, h2⟩)
        · subst h; exact ⟨Or.inl rfl, hx⟩
        · exact ⟨Or.inr h1, fun hs => h2 (Or.inr hs)⟩
      · rintro ⟨h1 | h1, h2⟩
        · subst h1; exact Or.inl rfl
        · by_cases hux : u = x
          · subst hux; exact Or.inl rfl
          · exact Or.inr ⟨h1, fun hs => (by
              rcases hs with hs | hs
              · exact hux hs
              · exact h2 hs)⟩

theorem nodup_dedupAux : ∀ (l seen : List (List Char)), (dedupAux seen l).Nodup := by
  intro l
  induction l with
  | nil => intro seen; simp [dedupAux]
  | cons x xs ih =>
    intro seen
    by_cases hx : x ∈ seen
    · rw [dedupAux, if_pos hx]; exact ih seen
    · rw [dedupAux, if_neg hx]
      refine List.nodup_cons.mpr ⟨?_, ih _⟩
      intro hmem
      exact ((mem_dedupAux xs (x :: seen)).mp hmem).2 (List.mem_cons_self x seen)

theorem dedupAux_congr : ∀ (l s1 s2 : List (List Char)),
    (∀ a, a ∈ s1 ↔ a ∈ s2) → dedupAux s1 l = dedupAux s2 l := by
  intro l
  induction l with
  | nil => intro s1 s2 _; rfl
  | cons x xs ih =>
    intro s1 s2 h
    by_cases hx : x ∈ s1
    · rw [dedupAux, dedupAux, if_pos hx, if_pos ((h x).mp hx)]
      exact ih s1 s2 h
    · have hx2 : x ∉ s2 := fun hh => hx ((h x).mpr hh)
      rw [dedupAux, dedupAux, if_neg hx, if_neg hx2]
      refine congrArg (x :: ·) ?_
      apply ih
      intro a
      simp only [List.mem_cons, h a]

theorem dedupAux_append : ∀ (l1 l2 seen : List (List Char)),
    dedupAux seen (l1 ++ l2) = dedupAux seen l1 ++ dedupAux (l1 ++ seen) l2 := by
  intro l1
  induction l1 with
  | nil => intro l2 seen; simp [dedupAux]
  | cons x xs ih =>
    intro l2 seen
    by_cases hx : x ∈ seen
    · rw [List.cons_append, dedupAux, if_pos hx, dedupAux, if_pos hx, ih]
      refine congrArg (dedupAux seen xs ++ ·) ?_
      apply dedupAux_congr
      intro a
      simp only [List.cons_append, List.mem_cons, List.mem_append]
      constructor
      · tauto
      · rintro (h | h | h)
        · subst h; exact Or.inr hx
        · exact Or.inl h
        · exact Or.inr h
    · rw [List.cons_append, dedupAux, if_neg hx, dedupAux, if_neg hx, ih,
        List.cons_append]
      refine congrArg (x :: ·) ?_
      refine congrArg (dedupAux (x :: seen) xs ++ ·) ?_
      apply dedupAux_congr
      intro a
      simp only [List.mem_cons, List.mem_append, List.cons_append]
      tauto

theorem mem_extract_ne_nil {t u : List Char}
    (hu : u ∈ extract_image_urls t) : u ≠ [] := by
  rw [extract_image_urls, mem_dedupAux] at hu
  rcases List.mem_append.mp hu.1 with h | h
  · rcases List.mem_append.mp h with h | h
    · obtain ⟨c, hc, _⟩ := mem_findall_data_head h
      exact ne_nil_of_head? hc
    · obtain ⟨c, hc, _⟩ := mem_findall_replicate_head h
      exact ne_nil_of_head? hc
  · obtain ⟨c, hc, _⟩ := mem_findall_imageUrl_head h
    exact ne_nil_of_head? hc

theorem dedupAux_eq_keepFirst : ∀ (l seen : List (List Char)),
    dedupAux seen l = keepFirstOccurrences (l.filter (fun u => decide (u ∉ seen))) := by
  intro l
  induction l with
  | nil =>
    intro seen
    rw [List.filter_nil]
    simp [dedupAux, keepFirstOccurrences]
  | cons x xs ih =>
    intro seen
    by_cases hx : x ∈ seen
    · rw [dedupAux, if_pos hx, List.filter_cons]
      have hd : decide (x ∉ seen) = false := by simp [hx]
      rw [hd]
      simp only [Bool.false_eq_true, if_false]
      exact ih seen
    · rw [dedupAux, if_neg hx, List.filter_cons]
      have hd : decide (x ∉ seen) = true := by simp [hx]
      rw [hd]
      simp only [if_true]
      rw [keepFirstOccurrences]
      refine congrArg (x :: ·) ?_
      rw [List.filter_filter]
      have hfun : (fun (y : List Char) => decide (y ≠ x) && decide (y ∉ seen)) =
          (fun y => decide (y ∉ x :: seen)) := by
        funext y
        by_cases h1 : y = x <;> by_cases h2 : y ∈ seen <;> simp [h1, h2]
      rw [hfun]
      exact ih (x :: seen)

theorem find_image_some {ctx : List Char} (h2 : ctx ≠ []) :
    find_image_from_context (some ctx) = (extract_image_urls ctx).getLast? := by
  rw [find_image_from_context, isEmpty_false_of_ne_nil h2]
  simp

theorem resolveImageUrl_explicit {u : List Char} (hu : u ≠ [])
    (cc : Option (List Char)) (env : List Char) :
    resolveImageUrl (some u) cc env = some u := by
  have h : pyTruthy (some u) = true := by
    simp [pyTruthy, isEmpty_false_of_ne_nil hu]
  rw [resolveImageUrl, h]
  simp

theorem edit_image_explicit {u : List Char} (hu : u ≠ []) (prompt : List Char)
    (cc : Option (List Char)) (n : Nat) (model env : List Char)
    (run : List Char → EditInput → Except (List Char) ProviderOutput) :
    edit_image prompt (some u) cc n model env run =
      editRemoteCall run model u prompt n := by
  rw [edit_image, resolveImageUrl_explicit hu cc env]
  simp [isEmpty_false_of_ne_nil hu]

theorem fromCtx_falsy {image_url cc : Option (List Char)}
    (h1 : pyTruthy image_url = false) (h2 : find_image_from_context cc = none) :
    pyTruthy (if pyTruthy cc then find_image_from_context cc else image_url) = false := by
  cases hc : pyTruthy cc with
  | false => simp only [Bool.false_eq_true, if_false]; exact h1
  | true =>
    rw [if_pos rfl, h2]
    rfl

theorem resolveImageUrl_env (image_url cc : Option (List Char)) (env : List Char)
    (h1 : pyTruthy image_url = false)
    (h2 : find_image_from_context cc = none)
    (h3 : env ≠ [])
    (h4 : ((splitComma env).map pyStrip).filter (fun u => !u.isEmpty) ≠ []) :
    resolveImageUrl image_url cc env =
      (((splitComma env).map pyStrip).filter (fun u => !u.isEmpty)).getLast? := by
  have hf := fromCtx_falsy h1 h2
  rw [resolveImageUrl, h1]
  simp only [Bool.false_eq_true, if_false, hf, isEmpty_false_of_ne_nil h3,
    isEmpty_false_of_ne_nil h4]

theorem resolveImageUrl_falsy {image_url cc : Option (List Char)} {env : List Char}
    (h1 : pyTruthy image_url = false)
    (h2 : find_image_from_context cc = none)
    (h3 : ((splitComma env).map pyStrip).filter (fun u => !u.isEmpty) = []) :
    pyTruthy (resolveImageUrl image_url cc env) = false := by
  have hf := fromCtx_falsy h1 h2
  rw [resolveImageUrl, h1]
  cases he : env.isEmpty with
  | true =>
    simp only [Bool.false_eq_true, if_false, hf, if_true]
  | false =>
    simp only [Bool.false_eq_true, if_false, hf, h3]
    simp only [List.isEmpty_nil, if_true]
    exact hf

theorem edit_image_falsy {image_url cc : Option (List Char)}
    {env prompt model : List Char} {n : Nat}
    {run : List Char → EditInput → Except (List Char) ProviderOutput}
    (h : pyTruthy (resolveImageUrl image_url cc env) = false) :
    edit_image prompt image_url cc n model env run = Except.ok [] := by
  rcases hres : resolveImageUrl image_url cc env with _ | img
  · rw [edit_image, hres]
  · rw [hres] at h
    have h' : img.isEmpty = true := by
      cases hi : img.isEmpty with
      | true => rfl
      | false => rw [pyTruthy, hi] at h; simp at h
    rw [edit_image, hres]
    simp [h']

theorem extract_nodup (text : List Char) : (extract_image_urls text).Nodup := by
  rw [extract_image_urls]
  exact nodup_dedupAux _ _

theorem count_eq_one_of_nodup_mem {u : List Char} {l : List (List Char)}
    (hn : l.Nodup) (hm : u ∈ l) : List.count u l = 1 := by
  induction l with
  | nil => simp at hm
  | cons x xs ih =>
    rw [List.count_cons]
    rcases List.mem_cons.mp hm with h | h
    · subst h
      have hx : u ∉ xs := (List.nodup_cons.mp hn).1
      have hz : List.count u xs = 0 := List.count_eq_zero.mpr hx
      simp [hz]
    · have hne : u ≠ x := by
        intro he; subst he; exact (List.nodup_cons.mp hn).1 h
      rw [ih (List.nodup_cons.mp hn).2 h]
      simp [Ne.symm hne]

/-- C1: when the explicit image_url is absent or empty (falsy) and the
conversation context is a non-empty string whose extraction yields at least
one image reference, the resolution used by `edit_image` returns exactly the
last element of the extractor's output over the context (most recent
mention), and in particular succeeds. -/
theorem c1_context_takes_last_mention (image_url : Option (List Char))
    (ctx env : List Char) (h1 : pyTruthy image_url = false) (h2 : ctx ≠ [])
    (h3 : extract_image_urls ctx ≠ []) :
    resolveImageUrl image_url (some ctx) env = (extract_image_urls ctx).getLast? ∧
    resolveImageUrl image_url (some ctx) env ≠ none := by
  obtain ⟨u, hu⟩ := getLast?_eq_some_of_ne_nil h3
  have hune : u ≠ [] := mem_extract_ne_nil (mem_of_getLast?_eq_some hu)
  have htr : pyTruthy (some ctx) = true := by
    rw [pyTruthy, isEmpty_false_of_ne_nil h2]
    rfl
  have hut : pyTruthy (some u) = true := by
    rw [pyTruthy, isEmpty_false_of_ne_nil hune]
    rfl
  have hfind : find_image_from_context (some ctx) = some u := by
    rw [find_image_some h2, hu]
  have hres : resolveImageUrl image_url (some ctx) env = some u := by
    simp [resolveImageUrl, h1, htr, hfind, hut]
  rw [hres, hu]
  exact ⟨rfl, by simp⟩

/-- C1 witness: the resolver on the spec's example context returns the last
mentioned image URL. -/
theorem c1_witness :
    resolveImageUrl none (some ("first https://a/x.png then https://b/y.png".toList))
        [] =
      (extract_image_urls ("first https://a/x.png then https://b/y.png".toList)).getLast? ∧
    (extract_image_urls ("first https://a/x.png then https://b/y.png".toList)).getLast? =
      some ("https://b/y.png".toList) := by
  refine ⟨(c1_context_takes_last_mention none
    ("first https://a/x.png then https://b/y.png".toList) [] (by rfl)
    (by decide) (by decide)).1, by decide⟩

/-- C2: for every input text, `extract_image_urls` returns the concatenation
of the data-URI findall group, then the replicate-delivery group, then the
generic image-URL group — each group in left-to-right scan order as produced
by `pyFindall` — deduplicated by exact string equality keeping the first
occurrence and preserving that order (the independent first-occurrence
characterization `keepFirstOccurrences`). -/
theorem c2_extract_grouped_concat_dedup (text : List Char) :
    extract_image_urls text =
      keepFirstOccurrences (pyFindall dataUriMatch text
        ++ pyFindall replicateDeliveryMatch text
        ++ pyFindall imageUrlMatch text) := by
  rw [extract_image_urls, dedupAux_eq_keepFirst]
  refine congrArg keepFirstOccurrences ?_
  apply List.filter_eq_self.mpr
  intro a _
  simp

/-- C3: a reference matched by both the replicate-delivery pattern and the
generic image-URL pattern appears exactly once in the extractor's output,
and it is attributed to the provider-hosted scan: it is not a data-URI
match, it already occurs in the deduplication of the data-URI and
replicate-delivery groups alone, and the full output splits as that prefix
followed by the deduplicated remainder of the generic group. -/
theorem c3_provider_hosted_precedence (text u : List Char)
    (hR : u ∈ pyFindall replicateDeliveryMatch text)
    (_hG : u ∈ pyFindall imageUrlMatch text) :
    List.count u (extract_image_urls text) = 1 ∧
    u ∉ pyFindall dataUriMatch text ∧
    u ∈ dedupAux []
      (pyFindall dataUriMatch text ++ pyFindall replicateDeliveryMatch text) ∧
    extract_image_urls text =
      dedupAux [] (pyFindall dataUriMatch text ++ pyFindall replicateDeliveryMatch text)
        ++ dedupAux (pyFindall dataUriMatch text ++ pyFindall replicateDeliveryMatch text)
          (pyFindall imageUrlMatch text) := by
  have hND : u ∉ pyFindall dataUriMatch text := by
    intro hD
    obtain ⟨c, hc, hd⟩ := mem_findall_data_head hD
    obtain ⟨c', hc', hh⟩ := mem_findall_replicate_head hR
    rw [hc] at hc'
    have hcc : c = c' := by injection hc'
    subst hcc
    rw [hd] at hh
    exact absurd hh (by decide)
  have hmm : u ∈ pyFindall dataUriMatch text ++ pyFindall replicateDeliveryMatch text :=
    List.mem_append.mpr (Or.inr hR)
  have hmem : u ∈ extract_image_urls text := by
    rw [extract_image_urls, mem_dedupAux]
    exact ⟨List.mem_append.mpr (Or.inl hmm), by simp⟩
  have hsplit := dedupAux_append
    (pyFindall dataUriMatch text ++ pyFindall replicateDeliveryMatch text)
    (pyFindall imageUrlMatch text) []
  rw [List.append_nil] at hsplit
  refine ⟨count_eq_one_of_nodup_mem (extract_nodup text) hmem, hND, ?_, ?_⟩
  · rw [mem_dedupAux]
    exact ⟨hmm, by simp⟩
  · rw [extract_image_urls]
    exact hsplit

/-- C3 witness: a replicate-delivery URL ending in `.png` matches both
patterns, appears exactly once in the extractor's output, and is attributed
to the provider-hosted group. -/
theorem c3_witness :
    List.count ("https://replicate.delivery/x.png".toList)
        (extract_image_urls ("https://replicate.delivery/x.png".toList)) = 1 ∧
    "https://replicate.delivery/x.png".toList ∉
      pyFindall dataUriMatch ("https://replicate.delivery/x.png".toList) ∧
    "https://replicate.delivery/x.png".toList ∈ dedupAux []
      (pyFindall dataUriMatch ("https://replicate.delivery/x.png".toList)
        ++ pyFindall replicateDeliveryMatch ("https://replicate.delivery/x.png".toList)) ∧
    extract_image_urls ("https://replicate.delivery/x.png".toList) =
      dedupAux [] (pyFindall dataUriMatch ("https://replicate.delivery/x.png".toList)
          ++ pyFindall replicateDeliveryMatch ("https://replicate.delivery/x.png".toList))
        ++ dedupAux (pyFindall dataUriMatch ("https://replicate.delivery/x.png".toList)
            ++ pyFindall replicateDeliveryMatch ("https://replicate.delivery/x.png".toList))
          (pyFindall imageUrlMatch ("https://replicate.delivery/x.png".toList)) :=
  c3_provider_hosted_precedence ("https://replicate.delivery/x.png".toList)
    ("https://replicate.delivery/x.png".toList) (by decide) (by decide)

/-- C4: a non-empty explicit image_url is the resolved target: the resolver
returns it unchanged, and `edit_image` delegates straight to the remote call
on it, whatever the conversation context and environment fallback contain. -/
theorem c4_explicit_url_wins (u : List Char) (hu : u ≠ [])
    (cc : Option (List Char)) (env prompt model : List Char) (n : Nat)
    (run : List Char → EditInput → Except (List Char) ProviderOutput) :
    resolveImageUrl (some u) cc env = some u ∧
    edit_image prompt (some u) cc n model env run =
      editRemoteCall run model u prompt n :=
  ⟨resolveImageUrl_explicit hu cc env,
    edit_image_explicit hu prompt cc n model env run⟩

/-- C4 witness: the spec's precedence example — explicit URL wins over both
a context mention and an environment fallback. -/
theorem c4_witness :
    resolveImageUrl (some ("https://a/x.png".toList))
        (some ("... https://b/y.png ...".toList)) ("https://c/z.png".toList) =
      some ("https://a/x.png".toList) ∧
    edit_image ("p".toList) (some ("https://a/x.png".toList))
        (some ("... https://b/y.png ...".toList)) 1 ("m".toList)
        ("https://c/z.png".toList)
        (fun _ _ => Except.ok (ProviderOutput.pyList [])) =
      editRemoteCall (fun _ _ => Except.ok (ProviderOutput.pyList []))
        ("m".toList) ("https://a/x.png".toList) ("p".toList) 1 :=
  c4_explicit_url_wins ("https://a/x.png".toList) (by decide)
    (some ("... https://b/y.png ...".toList)) ("https://c/z.png".toList)
    ("p".toList) ("m".toList) 1
    (fun _ _ => Except.ok (ProviderOutput.pyList []))

/-- C5: when the explicit URL is falsy and the context yields no reference,
the resolver consults the environment value: it splits on commas, strips
each entry, drops empty entries, and returns the last remaining entry. -/
theorem c5_env_fallback_last (image_url cc : Option (List Char)) (env : List Char)
    (h1 : pyTruthy image_url = false)
    (h2 : find_image_from_context cc = none)
    (h3 : env ≠ [])
    (h4 : ((splitComma env).map pyStrip).filter (fun u => !u.isEmpty) ≠ []) :
    resolveImageUrl image_url cc env =
      (((splitComma env).map pyStrip).filter (fun u => !u.isEmpty)).getLast? ∧
    resolveImageUrl image_url cc env ≠ none := by
  have he := resolveImageUrl_env image_url cc env h1 h2 h3 h4
  obtain ⟨a, ha⟩ := getLast?_eq_some_of_ne_nil h4
  exact ⟨he, by rw [he, ha]; simp⟩

/-- C5 witness: the spec's environment-fallback example returns the last
entry after comma-splitting and trimming. -/
theorem c5_witness :
    resolveImageUrl none none ("https://a/x.png, https://b/y.png".toList) =
      (((splitComma ("https://a/x.png, https://b/y.png".toList)).map pyStrip).filter
          (fun u => !u.isEmpty)).getLast? ∧
    (((splitComma ("https://a/x.png, https://b/y.png".toList)).map pyStrip).filter
        (fun u => !u.isEmpty)).getLast? = some ("https://b/y.png".toList) :=
  ⟨(c5_env_fallback_last none none ("https://a/x.png, https://b/y.png".toList)
      (by rfl) (by rfl) (by decide) (by decide)).1, by decide⟩

/-- C6: when the explicit URL is falsy, the context yields no reference and
the environment value contains no nonempty trimmed entry, `edit_image`
returns the empty list, whatever the provider `run` would do — the gateway
is never consulted and no error is signalled. -/
theorem c6_resolution_empty_returns_nil (image_url cc : Option (List Char))
    (env prompt model : List Char) (n : Nat)
    (h1 : pyTruthy image_url = false)
    (h2 : find_image_from_context cc = none)
    (h3 : ((splitComma env).map pyStrip).filter (fun u => !u.isEmpty) = []) :
    ∀ run, edit_image prompt image_url cc n model env run = Except.ok [] := by
  intro run
  exact edit_image_falsy (resolveImageUrl_falsy h1 h2 h3)

/-- C6 witness: with all three sources empty, `edit_image` returns `[]`
even under a provider that would raise. -/
theorem c6_witness :
    edit_image ("p".toList) none none 1 ("m".toList) ("  , ".toList)
      (fun _ _ => Except.error ("boom".toList)) = Except.ok [] :=
  c6_resolution_empty_returns_nil none none ("  , ".toList) ("p".toList)
    ("m".toList) 1 (by rfl) (by rfl) (by decide)
    (fun _ _ => Except.error ("boom".toList))

/-- C7: the gateway normalization of `generate_image` and `edit_image`: a
provider sequence is returned as the elementwise stringification in order,
and a provider scalar is returned as the one-element list of its
stringification. -/
theorem c7_gateway_normalization (p m u env : List Char) (cc : Option (List Char))
    (n : Nat) (hu : u ≠ []) :
    (∀ run vs, run m (genInputOf p n) = Except.ok (ProviderOutput.pyList vs) →
        generate_image p n m run = Except.ok (vs.map pyToString)) ∧
    (∀ run v, run m (genInputOf p n) = Except.ok (ProviderOutput.scalar v) →
        generate_image p n m run = Except.ok [pyToString v]) ∧
    (∀ run vs, run m (editInputOf u p n) = Except.ok (ProviderOutput.pyList vs) →
        edit_image p (some u) cc n m env run = Except.ok (vs.map pyToString)) ∧
    (∀ run v, run m (editInputOf u p n) = Except.ok (ProviderOutput.scalar v) →
        edit_image p (some u) cc n m env run = Except.ok [pyToString v]) := by
  refine ⟨?_, ?_, ?_, ?_⟩
  · intro run vs h
    rw [generate_image, h]
    rfl
  · intro run v h
    rw [generate_image, h]
    rfl
  · intro run vs h
    rw [edit_image_explicit hu p cc n m env run, editRemoteCall, h]
    rfl
  · intro run v h
    rw [edit_image_explicit hu p cc n m env run, editRemoteCall, h]
    rfl

/-- C7 witness: a provider returning the list `["u1", "u2"]` yields exactly
`["u1", "u2"]` from `generate_image`, and the scalar `"u1"` yields `["u1"]`
from both tools. -/
theorem c7_witness :
    generate_image ("cat".toList) 2 ("model-x".toList)
        (fun _ _ => Except.ok (ProviderOutput.pyList
          [PyValue.vStr ("u1".toList), PyValue.vStr ("u2".toList)])) =
      Except.ok ["u1".toList, "u2".toList] ∧
    generate_image ("cat".toList) 2 ("model-x".toList)
        (fun _ _ => Except.ok (ProviderOutput.scalar (PyValue.vStr ("u1".toList)))) =
      Except.ok ["u1".toList] ∧
    edit_image ("cat".toList) (some ("https://a/x.png".toList)) none 2
        ("model-x".toList) []
        (fun _ _ => Except.ok (ProviderOutput.scalar (PyValue.vStr ("u1".toList)))) =
      Except.ok ["u1".toList] := by
  refine ⟨?_, ?_, ?_⟩
  · exact (c7_gateway_normalization ("cat".toList) ("model-x".toList)
      ("https://a/x.png".toList) [] none 2 (by decide)).1 _
      [PyValue.vStr ("u1".toList), PyValue.vStr ("u2".toList)] rfl
  · exact (c7_gateway_normalization ("cat".toList) ("model-x".toList)
      ("https://a/x.png".toList) [] none 2 (by decide)).2.1 _
      (PyValue.vStr ("u1".toList)) rfl
  · exact (c7_gateway_normalization ("cat".toList) ("model-x".toList)
      ("https://a/x.png".toList) [] none 2 (by decide)).2.2.2 _
      (PyValue.vStr ("u1".toList)) rfl

/-- C8 counterexample: an absent provider result (Python `None`) is not
normalized to the empty sequence — `generate_image` stringifies it and
returns `["None"]`. -/
theorem c8_counterexample :
    generate_image ("p".toList) 1 ("m".toList)
        (fun _ _ => Except.ok (ProviderOutput.scalar PyValue.vNone)) =
      Except.ok ["None".toList] ∧
    generate_image ("p".toList) 1 ("m".toList)
        (fun _ _ => Except.ok (ProviderOutput.scalar PyValue.vNone)) ≠
      Except.ok [] := by
  constructor
  · rfl
  · intro h
    rw [show generate_image ("p".toList) 1 ("m".toList)
        (fun _ _ => Except.ok (ProviderOutput.scalar PyValue.vNone)) =
        Except.ok ["None".toList] from rfl] at h
    simp at h

/-- C8 (amended): the tools always return a list (type-level); when the
provider returns a sequence the result length equals the provider's count;
an absent (`None`) provider result is stringified like any scalar, yielding
the one-element list `["None"]`, not the empty sequence — an empty provider
sequence, however, does normalize to the empty list. -/
theorem c8_amended_result_shape (p m u env : List Char) (cc : Option (List Char))
    (n : Nat) (hu : u ≠ []) :
    (∀ run vs, run m (genInputOf p n) = Except.ok (ProviderOutput.pyList vs) →
        ∃ rs, generate_image p n m run = Except.ok rs ∧ rs.length = vs.length) ∧
    (∀ run, run m (genInputOf p n) = Except.ok (ProviderOutput.scalar PyValue.vNone) →
        generate_image p n m run = Except.ok ["None".toList]) ∧
    (∀ run vs, run m (editInputOf u p n) = Except.ok (ProviderOutput.pyList vs) →
        ∃ rs, edit_image p (some u) cc n m env run = Except.ok rs ∧
          rs.length = vs.length) ∧
    (∀ run, run m (editInputOf u p n) = Except.ok (ProviderOutput.scalar PyValue.vNone) →
        edit_image p (some u) cc n m env run = Except.ok ["None".toList]) := by
  refine ⟨?_, ?_, ?_, ?_⟩
  · intro run vs h
    refine ⟨vs.map pyToString, ?_, List.length_map vs pyToString⟩
    rw [generate_image, h]
    rfl
  · intro run h
    rw [generate_image, h]
    rfl
  · intro run vs h
    refine ⟨vs.map pyToString, ?_, List.length_map vs pyToString⟩
    rw [edit_image_explicit hu p cc n m env run, editRemoteCall, h]
    rfl
  · intro run h
    rw [edit_image_explicit hu p cc n m env run, editRemoteCall, h]
    rfl

/-- C8 witness: a provider list of two values yields a two-element result,
an empty provider list yields the empty list, and a `None` scalar yields
`["None"]`. -/
theorem c8_witness :
    (∃ rs, generate_image ("p".toList) 2 ("m".toList)
        (fun _ _ => Except.ok (ProviderOutput.pyList
          [PyValue.vStr ("u1".toList), PyValue.vStr ("u2".toList)])) =
        Except.ok rs ∧ rs.length = 2) ∧
    (∃ rs, edit_image ("p".toList) (some ("https://a/x.png".toList)) none 2
        ("m".toList) []
        (fun _ _ => Except.ok (ProviderOutput.pyList [])) =
        Except.ok rs ∧ rs.length = 0) ∧
    edit_image ("p".toList) (some ("https://a/x.png".toList)) none 2
        ("m".toList) []
        (fun _ _ => Except.ok (ProviderOutput.scalar PyValue.vNone)) =
      Except.ok ["None".toList] := by
  refine ⟨?_, ?_, ?_⟩
  · exact (c8_amended_result_shape ("p".toList) ("m".toList)
      ("https://a/x.png".toList) [] none 2 (by decide)).1 _
      [PyValue.vStr ("u1".toList), PyValue.vStr ("u2".toList)] rfl
  · exact (c8_amended_result_shape ("p".toList) ("m".toList)
      ("https://a/x.png".toList) [] none 2 (by decide)).2.2.1 _ [] rfl
  · exact (c8_amended_result_shape ("p".toList) ("m".toList)
      ("https://a/x.png".toList) [] none 2 (by decide)).2.2.2 _ rfl

/-- C9: a provider failure is re-signalled as a generation failure carrying
the original cause's description (`"Failed to generate image: " ++ e`,
`"Failed to edit image: " ++ e`); and under a provider that always fails,
`edit_image` returns the empty list only when resolution itself yielded no
(truthy) target — never because the remote call failed. -/
theorem c9_failure_propagation (p m e env : List Char)
    (img cc : Option (List Char)) (n : Nat) :
    (∀ run, run m (genInputOf p n) = Except.error e →
        generate_image p n m run = Except.error (genFailMsg ++ e)) ∧
    (∀ run u, u ≠ [] → resolveImageUrl img cc env = some u →
        run m (editInputOf u p n) = Except.error e →
        edit_image p img cc n m env run = Except.error (editFailMsg ++ e)) ∧
    (∀ run, (∀ mo inp, run mo inp = Except.error e) →
        edit_image p img cc n m env run = Except.ok [] →
        resolveImageUrl img cc env = none ∨ resolveImageUrl img cc env = some []) := by
  refine ⟨?_, ?_, ?_⟩
  · intro run h
    rw [generate_image, h]
  · intro run u hu hres h
    rw [edit_image, hres]
    simp only [isEmpty_false_of_ne_nil hu, Bool.false_eq_true, if_false]
    rw [editRemoteCall, h]
  · intro run hall hok
    rcases hres : resolveImageUrl img cc env with _ | u
    · exact Or.inl rfl
    · rcases hu : u.isEmpty with _ | _
      · exfalso
        rw [edit_image, hres] at hok
        simp only [hu, Bool.false_eq_true, if_false] at hok
        rw [editRemoteCall, hall m (editInputOf u p n)] at hok
        exact Except.noConfusion hok
      · refine Or.inr ?_
        cases u with
        | nil => rfl
        | cons _ _ => simp [List.isEmpty] at hu

/-- C9 witness: a failing provider makes `generate_image` and a resolved
`edit_image` error with the cause appended, and an always-failing provider
with empty sources still yields `Except.ok []` only via empty resolution. -/
theorem c9_witness :
    generate_image ("p".toList) 1 ("m".toList)
        (fun _ _ => Except.error ("boom".toList)) =
      Except.error (genFailMsg ++ "boom".toList) ∧
    edit_image ("p".toList) (some ("https://a/x.png".toList)) none 1 ("m".toList)
        [] (fun _ _ => Except.error ("boom".toList)) =
      Except.error (editFailMsg ++ "boom".toList) ∧
    (resolveImageUrl none none [] = none ∨ resolveImageUrl none none [] = some []) := by
  refine ⟨?_, ?_, ?_⟩
  · exact (c9_failure_propagation ("p".toList) ("m".toList) ("boom".toList) []
      (some ("https://a/x.png".toList)) none 1).1 _ rfl
  · exact (c9_failure_propagation ("p".toList) ("m".toList) ("boom".toList) []
      (some ("https://a/x.png".toList)) none 1).2.1 _
      ("https://a/x.png".toList) (by decide) (by decide) rfl
  · exact (c9_failure_propagation ("p".toList) ("m".toList) ("boom".toList) []
      none none 1).2.2 (fun _ _ => Except.error ("boom".toList))
      (fun _ _ => rfl) (by rfl)

/-- C10: the extractor pipeline treats absent input like the empty string:
`extract_image_urls` on the empty text returns the empty list, and
`find_image_from_context` gives the same (empty) answer for `none` and for
the empty string. -/
theorem c10_extractor_empty_absent :
    extract_image_urls [] = [] ∧
    find_image_from_context none = none ∧
    find_image_from_context (some []) = none ∧
    find_image_from_context none = find_image_from_context (some []) := by
  exact ⟨rfl, rfl, rfl, rfl⟩

example : extract_image_urls ("no images here".toList) = [] := by decide

example :
    extract_image_urls ("see https://a/x.png ok".toList) =
      ["https://a/x.png".toList] := by decide

example :
    extract_image_urls ("first https://a/x.png then https://b/y.png".toList) =
      ["https://a/x.png".toList, "https://b/y.png".toList] := by decide

example :
    extract_image_urls ("https://replicate.delivery/x.png".toList) =
      ["https://replicate.delivery/x.png".toList] := by decide

example :
    pyFindall dataUriMatch ("a data:image/png;base64,QUJD b".toList) =
      ["data:image/png;base64,QUJD".toList] := by decide

example :
    resolveImageUrl none none ("https://a/x.png, https://b/y.png".toList) =
      some ("https://b/y.png".toList) := by decide
